import Mathlib

/-!
# Verification of the `uule-converter` UULE codec

Shallow embedding of the Rust sources `src/latlong.rs`, `src/uulev1.rs` and
`src/uulev2.rs` (crate `uule_converter`), together with proofs of the
specification's claims about them.

Modelling conventions:
* Rust byte sequences (`Vec<u8>`) are `List Nat` whose elements are < 256.
* Rust strings are Lean `String` / `List Char` (both are sequences of Unicode
  scalar values, and Rust byte-level operations go through an explicit UTF-8
  encoder/decoder defined below).
* Rust `f64` latitude/longitude values are modelled as exact rationals `ℚ`;
  `f64::round` (round half away from zero) becomes `rustRound` below.
* Fallible Rust code returns `Except`; a Rust panic (unwrap of an error,
  out-of-bounds index) is modelled by `Option.none` at the outermost level,
  so `decode : String → Option (Except E Data)` returns `none` exactly when
  the Rust function panics instead of returning.
-/

-- Equality of modelled `Result` values is decidable, so the codecs can be
-- evaluated on concrete inputs by `decide`.
deriving instance DecidableEq for Except

/-! ## Decimal digits: `format!` integer rendering and `str::parse` -/

/-- The character for a decimal digit `0 ≤ d ≤ 9`. -/
def digitChar (d : Nat) : Char := Char.ofNat (48 + d)

/-- Decimal digits of `n`, most significant first, as produced by Rust's
`Display` for unsigned integers.  `fuel` is an upper bound on the recursion
depth (any `fuel > n` is enough); it only makes the recursion structural. -/
def natDigitsAux : Nat → Nat → List Char
  | 0, _ => []
  | fuel + 1, n =>
    if n < 10 then [digitChar n]
    else natDigitsAux fuel (n / 10) ++ [digitChar (n % 10)]

/-- Decimal representation of a `Nat`, as printed by the Rust integer `Display` impl. -/
def natDigits (n : Nat) : List Char := natDigitsAux (n + 1) n

/-- Decimal representation of an `Int`, as printed by the Rust integer `Display` impl:
a leading `'-'` for negative values, plain digits otherwise. -/
def intRepr (n : Int) : List Char :=
  if n < 0 then '-' :: natDigits n.natAbs else natDigits n.toNat

/-- Value of a decimal digit character, `none` for non-digits. -/
def digToNat (c : Char) : Option Nat :=
  if 48 ≤ c.toNat ∧ c.toNat ≤ 57 then some (c.toNat - 48) else none

/-- Left-to-right accumulation of decimal digits, as in Rust's
`from_str_radix` loop; fails on the first non-digit character. -/
def parseDigitsAux : List Char → Nat → Option Nat
  | [], acc => some acc
  | c :: cs, acc =>
    match digToNat c with
    | some d => parseDigitsAux cs (acc * 10 + d)
    | none => none

/-- Parse a nonempty all-digit string (Rust rejects the empty string). -/
def parseDigits (cs : List Char) : Option Nat :=
  if cs.isEmpty then none else parseDigitsAux cs 0

/-- Rust `str::parse::<uN>()` for an unsigned integer type with maximal
value `max`: an optional sign (`'-'` only accepts an accumulated value of
zero), then digits, then the range check. -/
def parse_unsigned (max : Nat) (cs : List Char) : Option Nat :=
  match cs with
  | [] => none
  | c :: rest =>
    if c = '+' then (parseDigits rest).bind fun v => if v ≤ max then some v else none
    else if c = '-' then (parseDigits rest).bind fun v => if v = 0 then some 0 else none
    else (parseDigits cs).bind fun v => if v ≤ max then some v else none

/-- Rust `str::parse::<iN>()` for a signed integer type whose range is
`[-bound, bound)` (so `bound = 2^(N-1)`). -/
def parse_signed (bound : Int) (cs : List Char) : Option Int :=
  match cs with
  | [] => none
  | c :: rest =>
    if c = '-' then (parseDigits rest).bind fun v => if (v : Int) ≤ bound then some (-(v : Int)) else none
    else if c = '+' then (parseDigits rest).bind fun v => if (v : Int) < bound then some (v : Int) else none
    else (parseDigits cs).bind fun v => if (v : Int) < bound then some (v : Int) else none

/-! ## Rust string splitting: `str::split`, `str::lines`,
`str::trim_start_matches`, `str::starts_with` -/

/-- One strip step of Rust `str::trim_start_matches`: repeatedly removes the
pattern from the front as long as it is a prefix.  `fuel` bounds the number
of iterations (the string length always suffices, since every step removes
at least one character). -/
def trimStartAux (pat : List Char) : Nat → List Char → List Char
  | 0, s => s
  | fuel + 1, s =>
    if pat ≠ [] ∧ pat.isPrefixOf s then trimStartAux pat fuel (s.drop pat.length)
    else s

/-- Rust `str::trim_start_matches(pat)`. -/
def trimStartMatches (pat s : List Char) : List Char := trimStartAux pat s.length s

/-- Strip one trailing carriage return, as Rust `str::lines` does for lines
terminated by `"\r\n"`. -/
def stripCR (l : List Char) : List Char :=
  if l.getLast? = some '\r' then l.dropLast else l

/-- Rust `str::lines`: split at `'\n'`; every line that was terminated by a
newline loses one trailing `'\r'`; a final empty fragment (from a trailing
newline, or the empty string) yields no line; a final unterminated fragment
is kept verbatim. -/
def rustLines (cs : List Char) : List (List Char) :=
  let parts := cs.splitOn '\n'
  match parts.getLast? with
  | none => parts.dropLast.map stripCR
  | some [] => parts.dropLast.map stripCR
  | some l => parts.dropLast.map stripCR ++ [l]

/-- The newline-joined block produced by the `format!` template in the
`Display` impls: lines separated (not terminated) by `'\n'`. -/
def joinLines : List (List Char) → List Char
  | [] => []
  | [l] => l
  | l :: ls => l ++ '\n' :: joinLines ls

/-! ## UTF-8 (Rust `str::as_bytes` / `String::from_utf8`) -/

/-- UTF-8 encoding of one Unicode scalar value (1–4 bytes). -/
def utf8EncodeChar (c : Char) : List Nat :=
  let n := c.toNat
  if n < 128 then [n]
  else if n < 2048 then [192 + n / 64, 128 + n % 64]
  else if n < 65536 then [224 + n / 4096, 128 + n / 64 % 64, 128 + n % 64]
  else [240 + n / 262144, 128 + n / 4096 % 64, 128 + n / 64 % 64, 128 + n % 64]

/-- UTF-8 encoding of a string, i.e. Rust `str::as_bytes`. -/
def utf8Encode : List Char → List Nat
  | [] => []
  | c :: cs => utf8EncodeChar c ++ utf8Encode cs

/-- Decode and validate one UTF-8 sequence at the front of a byte list,
returning the scalar value and the remaining bytes.  Rejects stray
continuation bytes and overlong lead bytes `0xC0/0xC1` directly; the value
range checks below are equivalent to Rust's lead/first-continuation-byte
table, and reject overlong forms, surrogate code points and values above
`0x10FFFF`. -/
def utf8DecodeOne : List Nat → Option (Nat × List Nat)
  | [] => none
  | b :: rest =>
    if b < 128 then some (b, rest)
    else if b < 194 then none
    else if b < 224 then
      match rest with
      | b1 :: rest1 =>
        if 128 ≤ b1 ∧ b1 < 192 then some ((b - 192) * 64 + (b1 - 128), rest1)
        else none
      | [] => none
    else if b < 240 then
      match rest with
      | b1 :: b2 :: rest2 =>
        if (128 ≤ b1 ∧ b1 < 192) ∧ (128 ≤ b2 ∧ b2 < 192) ∧
            2048 ≤ (b - 224) * 4096 + (b1 - 128) * 64 + (b2 - 128) ∧
            ((b - 224) * 4096 + (b1 - 128) * 64 + (b2 - 128) < 55296 ∨
              57343 < (b - 224) * 4096 + (b1 - 128) * 64 + (b2 - 128)) then
          some ((b - 224) * 4096 + (b1 - 128) * 64 + (b2 - 128), rest2)
        else none
      | _ => none
    else if b < 245 then
      match rest with
      | b1 :: b2 :: b3 :: rest3 =>
        if (128 ≤ b1 ∧ b1 < 192) ∧ (128 ≤ b2 ∧ b2 < 192) ∧ (128 ≤ b3 ∧ b3 < 192) ∧
            65536 ≤ (b - 240) * 262144 + (b1 - 128) * 4096 + (b2 - 128) * 64 + (b3 - 128) ∧
            (b - 240) * 262144 + (b1 - 128) * 4096 + (b2 - 128) * 64 + (b3 - 128) < 1114112 then
          some ((b - 240) * 262144 + (b1 - 128) * 4096 + (b2 - 128) * 64 + (b3 - 128), rest3)
        else none
      | _ => none
    else none

/-- The validation loop of Rust `String::from_utf8`: decode sequences until
the input is exhausted.  `fuel` only makes the recursion structural; every
step consumes at least one byte, so any `fuel ≥ length` gives the loop's
true semantics and the zero-fuel arm is unreachable. -/
def utf8DecodeAux : Nat → List Nat → Option (List Char)
  | _, [] => some []
  | 0, _ :: _ => none
  | fuel + 1, b :: rest =>
    match utf8DecodeOne (b :: rest) with
    | some (n, rest2) => (utf8DecodeAux fuel rest2).map fun cs => Char.ofNat n :: cs
    | none => none

/-- UTF-8 decoding with full validation, i.e. Rust `String::from_utf8`. -/
def utf8Decode (bs : List Nat) : Option (List Char) := utf8DecodeAux bs.length bs

/-! ## base64-URL without padding (crate `base64_url`) -/

/-- The base64-URL alphabet: `A–Z`, `a–z`, `0–9`, `'-'`, `'_'`. -/
def b64CharOf (s : Nat) : Char :=
  Char.ofNat
    (if s < 26 then 65 + s
     else if s < 52 then 97 + (s - 26)
     else if s < 62 then 48 + (s - 52)
     else if s = 62 then 45
     else 95)

/-- Value of a base64-URL alphabet character; `none` for any other character
(Rust `base64::DecodeError::InvalidByte`). -/
def b64ValOf (c : Char) : Option Nat :=
  if 65 ≤ c.toNat ∧ c.toNat ≤ 90 then some (c.toNat - 65)
  else if 97 ≤ c.toNat ∧ c.toNat ≤ 122 then some (c.toNat - 97 + 26)
  else if 48 ≤ c.toNat ∧ c.toNat ≤ 57 then some (c.toNat - 48 + 52)
  else if c = '-' then some 62
  else if c = '_' then some 63
  else none

/-- Split a byte list into 6-bit groups, 3 bytes → 4 sextets, with the
shortened final group used by unpadded base64. -/
def bytesToSextets : List Nat → List Nat
  | [] => []
  | [b] => [b / 4, b % 4 * 16]
  | [b, c] => [b / 4, b % 4 * 16 + c / 16, c % 16 * 4]
  | b :: c :: d :: rest =>
    b / 4 :: (b % 4 * 16 + c / 16) :: (c % 16 * 4 + d / 64) :: d % 64 :: bytesToSextets rest

/-- Reassemble bytes from 6-bit groups, 4 sextets → 3 bytes; a final group
of one sextet is invalid (`DecodeError::InvalidLength`), and nonzero unused
trailing bits are rejected (`DecodeError::InvalidLastSymbol`). -/
def sextetsToBytes : List Nat → Option (List Nat)
  | [] => some []
  | [_] => none
  | [s0, s1] => if s1 % 16 = 0 then some [s0 * 4 + s1 / 16] else none
  | [s0, s1, s2] =>
    if s2 % 4 = 0 then some [s0 * 4 + s1 / 16, s1 % 16 * 16 + s2 / 4] else none
  | s0 :: s1 :: s2 :: s3 :: rest =>
    (sextetsToBytes rest).map fun bs =>
      (s0 * 4 + s1 / 16) :: (s1 % 16 * 16 + s2 / 4) :: (s2 % 4 * 64 + s3) :: bs

/-- `base64_url::encode`: URL-safe alphabet, no padding. -/
def b64encode (bytes : List Nat) : List Char := (bytesToSextets bytes).map b64CharOf

/-- `base64_url::decode`: `none` models a `base64::DecodeError`. -/
def b64decode (cs : List Char) : Option (List Nat) :=
  (cs.mapM b64ValOf).bind sextetsToBytes

/-! ## `src/latlong.rs` — the coordinate codec

Rust `f64` degree values are modelled as exact rationals; `f64::round`
rounds half away from zero. -/

/-- `f64::round`: nearest integer, halfway cases away from zero. -/
def rustRound (q : ℚ) : Int := if q < 0 then -(⌊-q + 1 / 2⌋) else ⌊q + 1 / 2⌋

/-- The `as i64` cast: wrap into `[-2^63, 2^63)`. -/
def wrapI64 (n : Int) : Int := (n + 2 ^ 63) % 2 ^ 64 - 2 ^ 63

/-- `latlong_to_e7` from `src/latlong.rs`:
`(input * 10_000_000.0).round() as i64`. -/
def latlong_to_e7 (input : ℚ) : Int := wrapI64 (rustRound (input * 10000000))

/-- `latlong_from_e7` from `src/latlong.rs`: `input as f64 / 10_000_000.0`. -/
def latlong_from_e7 (input : Int) : ℚ := (input : ℚ) / 10000000

/-! ## `src/uulev1.rs` — the UULEv1 codec -/

/-- `Uulev1Error` from `src/uulev1.rs`.  The `source` payloads of the two
wrapping variants (a `base64::DecodeError` / `FromUtf8Error`) are foreign
error values and are not modelled. -/
inductive Uulev1Error where
  | invalidPrefix (received : String)
  | base64DecodingError
  | utf8DecodingError
deriving DecidableEq

/-- `Uulev1Data` from `src/uulev1.rs`.  `role` and `producer` are Rust `u8`
values (`< 256` is carried as a hypothesis where needed). -/
structure Uulev1Data where
  role : Nat
  producer : Nat
  canonical_name : String
deriving DecidableEq

/-- `Uulev1Data::new`: defaults `UULEV1_ROLE = 2`, `UULEV1_PRODUCER = 32`
from `src/consts.rs`. -/
def Uulev1Data.new (place : String) : Uulev1Data := ⟨2, 32, place⟩

/-- `Uulev1Data::encode`: build
`[8, role, 16, producer, 34, name_len as u8] ++ name_bytes`, base64-URL
encode, and prepend `"w+"`.  `canonical_name.len()` is the UTF-8 byte
length, and the `as u8` cast is `% 256`. -/
def Uulev1Data.encode (d : Uulev1Data) : String :=
  "w+" ++ String.mk (b64encode
    ([8, d.role, 16, d.producer, 34, (utf8Encode d.canonical_name.data).length % 256] ++
      utf8Encode d.canonical_name.data))

/-- `Uulev1Data::decode`.  The result is `none` when the Rust code panics:
it indexes `bytes[1]`, `bytes[3]`, `bytes[5]` and slices
`bytes[6..6 + name_len]` without any bounds check. -/
def Uulev1Data.decode (input : String) : Option (Except Uulev1Error Uulev1Data) :=
  if ("w+".data.isPrefixOf input.data) = false then
    some (Except.error (Uulev1Error.invalidPrefix input))
  else
    match b64decode (trimStartMatches "w+".data input.data) with
    | none => some (Except.error Uulev1Error.base64DecodingError)
    | some bytes =>
      if h : 6 ≤ bytes.length then
        let role := bytes.get ⟨1, by omega⟩
        let producer := bytes.get ⟨3, by omega⟩
        let name_len := bytes.get ⟨5, by omega⟩
        if 6 + name_len ≤ bytes.length then
          match utf8Decode ((bytes.drop 6).take name_len) with
          | some cs => some (Except.ok ⟨role, producer, String.mk cs⟩)
          | none => some (Except.error Uulev1Error.utf8DecodingError)
        else none
      else none

/-! ## `src/uulev2.rs` — the UULEv2 codec -/

/-- `Uulev2Error` from `src/uulev2.rs`.  Foreign `source` payloads
(`base64::DecodeError`, `ParseIntError`, `ParseFloatError`) are not
modelled; the string payloads are kept. -/
inductive Uulev2Error where
  | invalidPrefix (received : String)
  | base64DecodingError
  | unexpectedEnd (expected : String)
  | unexpectedLine (expected : String) (actual : String)
  | missingValue (field : String)
  | invalidIntegerValue
  | invalidFloatValue
deriving DecidableEq

/-- `Uulev2Data` from `src/uulev2.rs`.  `role`/`producer` are `u8`,
`provenance`/`radius` are `i32`, `timestamp` is `u128`, and the `f64`
coordinates are modelled as exact rationals. -/
structure Uulev2Data where
  role : Nat
  producer : Nat
  provenance : Int
  timestamp : Nat
  lat : ℚ
  long : ℚ
  radius : Int
deriving DecidableEq

/-- The nine lines written by the `Display` impl for `Uulev2Data`, in
order. -/
def Uulev2Data.displayLines (d : Uulev2Data) : List (List Char) :=
  [ "role:".data ++ natDigits d.role,
    "producer:".data ++ natDigits d.producer,
    "provenance:".data ++ intRepr d.provenance,
    "timestamp:".data ++ natDigits d.timestamp,
    "latlng\x7b".data,
    "latitude_e7:".data ++ intRepr (latlong_to_e7 d.lat),
    "longitude_e7:".data ++ intRepr (latlong_to_e7 d.long),
    "\x7d".data,
    "radius:".data ++ intRepr d.radius ]

/-- The `Display` impl for `Uulev2Data`: the intermediate text block, nine
lines joined (not terminated) by newlines. -/
def Uulev2Data.display (d : Uulev2Data) : List Char := joinLines d.displayLines

/-- `Uulev2Data::encode`: base64-URL encode the UTF-8 bytes of the display
form and prepend `"a+"`. -/
def Uulev2Data.encode (d : Uulev2Data) : String :=
  "a+" ++ String.mk (b64encode (utf8Encode d.display))

/-- `Uulev2Data::get_field_value`: take the next line, require the expected
field name as a prefix, and return the piece after the first colon
(`line.split(':').nth(1)`). -/
def Uulev2Data.get_field_value (line? : Option (List Char)) (field : String) :
    Except Uulev2Error (List Char) :=
  match line? with
  | none => Except.error (Uulev2Error.unexpectedEnd field)
  | some line =>
    if (field.data.isPrefixOf line) = false then
      Except.error (Uulev2Error.unexpectedLine field (String.mk line))
    else
      match (line.splitOn ':')[1]? with
      | none => Except.error (Uulev2Error.missingValue field)
      | some v => Except.ok v

/-- `Uulev2Data::parse_int_line`, generic over the integer type's parser
`p` (`str::parse::<T>()`); a parse failure maps to `InvalidIntegerValue`. -/
def Uulev2Data.parse_int_line (line? : Option (List Char)) (field : String)
    (p : List Char → Option α) : Except Uulev2Error α :=
  (Uulev2Data.get_field_value line? field).bind fun v =>
    match p v with
    | some x => Except.ok x
    | none => Except.error Uulev2Error.invalidIntegerValue

/-- `Uulev2Data::parse_lat_long`.  The `&mut Lines` iterator argument is
modelled by the list of remaining lines; the source consumes four lines:
the exact `"latlng\x7b"` delimiter, the two `_e7` fields (parsed as `i64` and
converted with `latlong_from_e7`), and the exact `"\x7d"` delimiter. -/
def Uulev2Data.parse_lat_long (ls : List (List Char)) : Except Uulev2Error (ℚ × ℚ) :=
  match ls.head? with
  | none => Except.error (Uulev2Error.unexpectedEnd "latlng\x7b")
  | some line =>
    if line ≠ "latlng\x7b".data then
      Except.error (Uulev2Error.unexpectedLine "latlng\x7b" (String.mk line))
    else
      (Uulev2Data.parse_int_line ls.tail.head? "latitude_e7" (parse_signed (2 ^ 63))).bind fun latE7 =>
      (Uulev2Data.parse_int_line ls.tail.tail.head? "longitude_e7" (parse_signed (2 ^ 63))).bind fun longE7 =>
      match ls.tail.tail.tail.head? with
      | none => Except.error (Uulev2Error.unexpectedEnd "\x7d")
      | some close =>
        if close ≠ "\x7d".data then
          Except.error (Uulev2Error.unexpectedLine "\x7d" (String.mk close))
        else
          Except.ok (latlong_from_e7 latE7, latlong_from_e7 longE7)

/-- The sequential line-parsing part of `Uulev2Data::decode`: the `lines`
iterator is modelled by the list `ls`, each `lines.next()` by the next
positional index. -/
def Uulev2Data.decode_lines (ls : List (List Char)) : Except Uulev2Error Uulev2Data :=
  (Uulev2Data.parse_int_line ls.head? "role" (parse_unsigned 255)).bind fun role =>
  (Uulev2Data.parse_int_line ls.tail.head? "producer" (parse_unsigned 255)).bind fun producer =>
  (Uulev2Data.parse_int_line ls.tail.tail.head? "provenance" (parse_signed (2 ^ 31))).bind fun provenance =>
  (Uulev2Data.parse_int_line ls.tail.tail.tail.head? "timestamp"
    (parse_unsigned (2 ^ 128 - 1))).bind fun timestamp =>
  (Uulev2Data.parse_lat_long ls.tail.tail.tail.tail).bind fun ll =>
  (Uulev2Data.parse_int_line ls.tail.tail.tail.tail.tail.tail.tail.tail.head? "radius"
    (parse_signed (2 ^ 31))).map fun radius =>
  Uulev2Data.mk role producer provenance timestamp ll.1 ll.2 radius

/-- `Uulev2Data::decode`.  The result is `none` when the Rust code panics:
both the base64 decode and the `String::from_utf8` results are
`.unwrap()`ed, so any base64 or UTF-8 failure is a panic, not an `Err`. -/
def Uulev2Data.decode (input : String) : Option (Except Uulev2Error Uulev2Data) :=
  if ("a+".data.isPrefixOf input.data) = false then
    some (Except.error (Uulev2Error.invalidPrefix input))
  else
    match b64decode (trimStartMatches "a+".data input.data) with
    | none => none
    | some bytes =>
      match utf8Decode bytes with
      | none => none
      | some cs => some (Uulev2Data.decode_lines (rustLines cs))

/-! ## Lemmas: decimal digits -/

theorem digToNat_digitChar : ∀ d < 10, digToNat (digitChar d) = some d := by decide

theorem mem_natDigitsAux {fuel n : Nat} {c : Char} (h : c ∈ natDigitsAux fuel n) :
    48 ≤ c.toNat ∧ c.toNat ≤ 57 := by
  induction fuel generalizing n with
  | zero => simp [natDigitsAux] at h
  | succ fuel ih =>
    rw [natDigitsAux] at h
    by_cases hn : n < 10
    · rw [if_pos hn] at h
      simp at h
      subst h
      have : ∀ d < 10, 48 ≤ (digitChar d).toNat ∧ (digitChar d).toNat ≤ 57 := by decide
      exact this n hn
    · rw [if_neg hn] at h
      rcases List.mem_append.mp h with h' | h'
      · exact ih h'
      · simp at h'
        subst h'
        have : ∀ d < 10, 48 ≤ (digitChar d).toNat ∧ (digitChar d).toNat ≤ 57 := by decide
        exact this (n % 10) (Nat.mod_lt n (by omega))

theorem mem_natDigits {n : Nat} {c : Char} (h : c ∈ natDigits n) :
    48 ≤ c.toNat ∧ c.toNat ≤ 57 := mem_natDigitsAux h

theorem natDigitsAux_ne_nil {fuel n : Nat} (h : n < fuel) : natDigitsAux fuel n ≠ [] := by
  cases fuel with
  | zero => omega
  | succ fuel =>
    rw [natDigitsAux]
    by_cases hn : n < 10
    · simp [hn]
    · simp [hn]

theorem natDigits_ne_nil (n : Nat) : natDigits n ≠ [] := natDigitsAux_ne_nil (by omega)

theorem parseDigitsAux_append (xs ys : List Char) (acc : Nat) :
    parseDigitsAux (xs ++ ys) acc = (parseDigitsAux xs acc).bind fun a => parseDigitsAux ys a := by
  induction xs generalizing acc with
  | nil => simp [parseDigitsAux]
  | cons c cs ih =>
    rw [List.cons_append, parseDigitsAux, parseDigitsAux]
    cases digToNat c with
    | none => rfl
    | some d => exact ih (acc * 10 + d)

theorem parseDigitsAux_natDigitsAux {fuel n : Nat} (h : n < fuel) (acc : Nat) :
    parseDigitsAux (natDigitsAux fuel n) acc =
      some (acc * 10 ^ (natDigitsAux fuel n).length + n) := by
  induction fuel generalizing n acc with
  | zero => omega
  | succ fuel ih =>
    rw [natDigitsAux]
    by_cases hn : n < 10
    · rw [if_pos hn]
      simp only [parseDigitsAux, digToNat_digitChar n hn]
      simp
    · rw [if_neg hn, parseDigitsAux_append]
      have hrec : n / 10 < fuel := by omega
      rw [ih hrec acc]
      rw [Option.some_bind]
      simp only [parseDigitsAux, digToNat_digitChar (n % 10) (by omega)]
      have hlen : (natDigitsAux fuel (n / 10) ++ [digitChar (n % 10)]).length =
          (natDigitsAux fuel (n / 10)).length + 1 := by simp
      rw [hlen]
      congr 1
      have h1 : n / 10 * 10 + n % 10 = n := by omega
      calc (acc * 10 ^ (natDigitsAux fuel (n / 10)).length + n / 10) * 10 + n % 10
          = acc * (10 ^ (natDigitsAux fuel (n / 10)).length * 10) + (n / 10 * 10 + n % 10) := by ring
        _ = acc * 10 ^ ((natDigitsAux fuel (n / 10)).length + 1) + n := by rw [h1, pow_succ]

theorem parseDigits_natDigits (n : Nat) : parseDigits (natDigits n) = some n := by
  rw [parseDigits, if_neg (by simp [natDigits_ne_nil n])]
  rw [natDigits, parseDigitsAux_natDigitsAux (by omega)]
  simp

theorem natDigits_head_not_sign {n : Nat} {c : Char} {rest : List Char}
    (h : natDigits n = c :: rest) : c ≠ '+' ∧ c ≠ '-' := by
  have hc : c ∈ natDigits n := by rw [h]; exact List.mem_cons_self c rest
  have := mem_natDigits hc
  constructor
  · intro he; subst he; revert this; decide
  · intro he; subst he; revert this; decide

theorem parse_unsigned_natDigits {max n : Nat} (h : n ≤ max) :
    parse_unsigned max (natDigits n) = some n := by
  rcases hcons : natDigits n with _ | ⟨c, rest⟩
  · exact absurd hcons (natDigits_ne_nil n)
  · obtain ⟨h1, h2⟩ := natDigits_head_not_sign hcons
    rw [parse_unsigned, if_neg h1, if_neg h2, ← hcons, parseDigits_natDigits]
    simp [h]

theorem parse_signed_intRepr {bound n : Int} (h1 : -bound ≤ n) (h2 : n < bound) :
    parse_signed bound (intRepr n) = some n := by
  by_cases hn : n < 0
  · rw [intRepr, if_pos hn]
    simp only [parse_signed, if_pos rfl]
    rw [parseDigits_natDigits, Option.some_bind]
    have hle : (n.natAbs : Int) ≤ bound := by omega
    rw [if_pos hle]
    exact congrArg some (by omega)
  · rw [intRepr, if_neg hn]
    rcases hcons : natDigits n.toNat with _ | ⟨c, rest⟩
    · exact absurd hcons (natDigits_ne_nil n.toNat)
    · obtain ⟨hp, hm⟩ := natDigits_head_not_sign hcons
      rw [parse_signed, if_neg hm, if_neg hp, ← hcons, parseDigits_natDigits]
      have hlt : (n.toNat : Int) < bound := by omega
      simp [hlt]
      omega

/-! ## Lemmas: trimming, splitting, lines -/

theorem trimStartAux_of_not {pat s : List Char} (fuel : Nat)
    (h : pat.isPrefixOf s = false) : trimStartAux pat fuel s = s := by
  cases fuel with
  | zero => rfl
  | succ fuel => simp [trimStartAux, h]

theorem trimStartMatches_of_not {pat s : List Char} (h : pat.isPrefixOf s = false) :
    trimStartMatches pat s = s := trimStartAux_of_not _ h

theorem trimStartMatches_append {pat t : List Char} (hne : pat ≠ [])
    (h : pat.isPrefixOf t = false) : trimStartMatches pat (pat ++ t) = t := by
  rw [trimStartMatches]
  obtain ⟨f, hf⟩ : ∃ f, (pat ++ t).length = f + 1 := by
    cases pat with
    | nil => exact absurd rfl hne
    | cons c cs => exact ⟨cs.length + t.length, by simp⟩
  rw [hf, trimStartAux]
  have hp : pat.isPrefixOf (pat ++ t) = true :=
    List.isPrefixOf_iff_prefix.mpr (List.prefix_append pat t)
  rw [if_pos ⟨hne, hp⟩, List.drop_left]
  exact trimStartAux_of_not _ h

theorem map_id_of_mem {α : Type} {f : α → α} {l : List α} (h : ∀ x ∈ l, f x = x) :
    l.map f = l := by
  induction l with
  | nil => rfl
  | cons x xs ih => simp_all

theorem splitOn_append_cons {α : Type} [DecidableEq α] (s : α) (a b : List α) :
    (a ++ s :: b).splitOn s = a.splitOn s ++ b.splitOn s := by
  induction a with
  | nil =>
    simp only [List.nil_append, List.splitOn, List.splitOnP_cons, beq_self_eq_true,
      if_pos rfl]
    rfl
  | cons x a ih =>
    simp only [List.cons_append, List.splitOn, List.splitOnP_cons] at ih ⊢
    by_cases hx : x = s
    · subst hx
      have hbeq : (x == x) = true := beq_self_eq_true x
      rw [if_pos hbeq, if_pos hbeq, ih]
      rfl
    · have hbeq : (x == s) = false := by simp [hx]
      rw [if_neg (by simp [hbeq]), if_neg (by simp [hbeq]), ih]
      rcases hsp : List.splitOnP (fun b => b == s) a with _ | ⟨c, cs⟩
      · exact absurd hsp (List.splitOnP_ne_nil _ a)
      · simp [List.modifyHead]

theorem splitOn_no_sep {α : Type} [DecidableEq α] {s : α} {l : List α} (h : s ∉ l) :
    l.splitOn s = [l] := by
  apply List.splitOnP_eq_single
  intro x hx
  simp only [beq_iff_eq]
  intro he
  subst he
  exact h hx

theorem splitOn_joinLines {ls : List (List Char)} (hne : ls ≠ [])
    (h : ∀ l ∈ ls, '\n' ∉ l) : (joinLines ls).splitOn '\n' = ls := by
  induction ls with
  | nil => exact absurd rfl hne
  | cons l ls ih =>
    cases ls with
    | nil =>
      rw [joinLines]
      exact splitOn_no_sep (h l (List.mem_cons_self l []))
    | cons m ms =>
      rw [joinLines, splitOn_append_cons,
        splitOn_no_sep (h l (List.mem_cons_self l (m :: ms))),
        ih (List.cons_ne_nil m ms) (fun x hx => h x (List.mem_cons_of_mem l hx))]
      · rfl
      · exact List.cons_ne_nil m ms

theorem stripCR_eq_self {l : List Char} (h : l.getLast? ≠ some '\r') : stripCR l = l := by
  rw [stripCR, if_neg h]

theorem rustLines_joinLines {ls : List (List Char)} (hne : ls ≠ [])
    (hn : ∀ l ∈ ls, '\n' ∉ l) (hnil : ∀ l ∈ ls, l ≠ [])
    (hcr : ∀ l ∈ ls, l.getLast? ≠ some '\r') : rustLines (joinLines ls) = ls := by
  rw [rustLines]
  simp only [splitOn_joinLines hne hn]
  have hlast : ls.getLast? = some (ls.getLast hne) := List.getLast?_eq_getLast ls hne
  have hmem : ls.getLast hne ∈ ls := List.getLast_mem hne
  rcases hcons : ls.getLast hne with _ | ⟨x, xs⟩
  · exact absurd hcons (hnil _ hmem)
  · rw [hlast, hcons]
    have hmap : ls.dropLast.map stripCR = ls.dropLast :=
      map_id_of_mem fun l hl => stripCR_eq_self (hcr l (List.dropLast_subset ls hl))
    calc (ls.dropLast.map stripCR ++ [x :: xs] : List (List Char))
        = ls.dropLast ++ [ls.getLast hne] := by rw [hmap, hcons]
      _ = ls := List.dropLast_append_getLast hne

theorem rustLines_joinLines_append {ls : List (List Char)} (extra : List Char)
    (hne : ls ≠ []) (hn : ∀ l ∈ ls, '\n' ∉ l)
    (hcr : ∀ l ∈ ls, l.getLast? ≠ some '\r') :
    ∃ junk, rustLines (joinLines ls ++ '\n' :: extra) = ls ++ junk := by
  rw [rustLines]
  simp only [splitOn_append_cons, splitOn_joinLines hne hn]
  have hmap : ls.map stripCR = ls :=
    map_id_of_mem fun l hl => stripCR_eq_self (hcr l hl)
  have hP : extra.splitOn '\n' ≠ [] := List.splitOnP_ne_nil _ extra
  have hlastP : (ls ++ extra.splitOn '\n').getLast? = (extra.splitOn '\n').getLast? := by
    rw [List.getLast?_append]
    rcases hx : (extra.splitOn '\n').getLast? with _ | l
    · exact absurd (List.getLast?_eq_none_iff.mp hx) hP
    · rfl
  have hdrop : (ls ++ extra.splitOn '\n').dropLast = ls ++ (extra.splitOn '\n').dropLast := by
    rw [List.dropLast_append, if_neg (by simp [hP])]
  rcases hx : (extra.splitOn '\n').getLast? with _ | ⟨_ | ⟨c, cs⟩⟩
  · exact absurd (List.getLast?_eq_none_iff.mp hx) hP
  · rw [hlastP, hx, hdrop]
    exact ⟨(extra.splitOn '\n').dropLast.map stripCR, by simp [hmap]⟩
  · rw [hlastP, hx, hdrop]
    exact ⟨(extra.splitOn '\n').dropLast.map stripCR ++ [c :: cs], by simp [hmap]⟩

/-! ## Lemmas: UTF-8 round trip -/

theorem char_valid_facts (c : Char) :
    c.toNat < 1114112 ∧ (c.toNat < 55296 ∨ 57343 < c.toNat) := by
  have hv := c.valid
  rw [UInt32.isValidChar, Nat.isValidChar] at hv
  rw [Char.toNat]
  rcases hv with h | ⟨h1, h2⟩
  · exact ⟨by omega, Or.inl h⟩
  · exact ⟨h2, Or.inr h1⟩

theorem utf8EncodeChar_lt {c : Char} : ∀ b ∈ utf8EncodeChar c, b < 256 := by
  obtain ⟨hv, -⟩ := char_valid_facts c
  intro b hb
  rw [utf8EncodeChar] at hb
  split_ifs at hb <;> simp at hb <;> omega

theorem utf8Encode_lt {cs : List Char} : ∀ b ∈ utf8Encode cs, b < 256 := by
  induction cs with
  | nil => simp [utf8Encode]
  | cons c cs ih =>
    rw [utf8Encode]
    intro b hb
    rcases List.mem_append.mp hb with h | h
    · exact utf8EncodeChar_lt b h
    · exact ih b h

theorem utf8DecodeOne_encodeChar (c : Char) (rest : List Nat) :
    utf8DecodeOne (utf8EncodeChar c ++ rest) = some (c.toNat, rest) := by
  obtain ⟨hv, hs⟩ := char_valid_facts c
  rw [utf8EncodeChar]
  by_cases h1 : c.toNat < 128
  · rw [if_pos h1]
    simp only [List.cons_append, List.nil_append]
    rw [utf8DecodeOne.eq_def]
    simp only []
    rw [if_pos h1]
  · by_cases h2 : c.toNat < 2048
    · rw [if_neg h1, if_pos h2]
      simp only [List.cons_append, List.nil_append]
      have hX : (192 + c.toNat / 64 - 192) * 64 + (128 + c.toNat % 64 - 128) = c.toNat := by
        omega
      rw [utf8DecodeOne.eq_def]
      simp only []
      rw [if_neg (by omega), if_neg (by omega), if_pos (by omega)]
      split_ifs with hcond
      · rw [hX]
      · exact absurd ⟨by omega, by omega⟩ hcond
    · by_cases h3 : c.toNat < 65536
      · rw [if_neg h1, if_neg h2, if_pos h3]
        simp only [List.cons_append, List.nil_append]
        have hX : (224 + c.toNat / 4096 - 224) * 4096 + (128 + c.toNat / 64 % 64 - 128) * 64 +
            (128 + c.toNat % 64 - 128) = c.toNat := by omega
        rw [utf8DecodeOne.eq_def]
        simp only []
        rw [if_neg (by omega), if_neg (by omega), if_neg (by omega), if_pos (by omega)]
        split_ifs with hcond
        · rw [hX]
        · refine absurd ⟨by omega, by omega, ?_, ?_⟩ hcond
          · rw [hX]; omega
          · rw [hX]; exact hs
      · rw [if_neg h1, if_neg h2, if_neg h3]
        simp only [List.cons_append, List.nil_append]
        have hX : (240 + c.toNat / 262144 - 240) * 262144 +
            (128 + c.toNat / 4096 % 64 - 128) * 4096 +
            (128 + c.toNat / 64 % 64 - 128) * 64 + (128 + c.toNat % 64 - 128) = c.toNat := by
          omega
        rw [utf8DecodeOne.eq_def]
        simp only []
        rw [if_neg (by omega), if_neg (by omega), if_neg (by omega), if_neg (by omega),
          if_pos (by omega)]
        split_ifs with hcond
        · rw [hX]
        · refine absurd ⟨by omega, by omega, by omega, ?_, ?_⟩ hcond
          · rw [hX]; omega
          · rw [hX]; omega

theorem utf8EncodeChar_ne_nil (c : Char) : utf8EncodeChar c ≠ [] := by
  rw [utf8EncodeChar]
  split_ifs <;> simp

theorem utf8DecodeAux_encode (cs : List Char) :
    ∀ fuel, (utf8Encode cs).length ≤ fuel → utf8DecodeAux fuel (utf8Encode cs) = some cs := by
  induction cs with
  | nil => intro fuel _; cases fuel <;> rfl
  | cons c cs ih =>
    intro fuel hfuel
    rcases he : utf8EncodeChar c with _ | ⟨b, bs⟩
    · exact absurd he (utf8EncodeChar_ne_nil c)
    · have hform : utf8Encode (c :: cs) = b :: (bs ++ utf8Encode cs) := by
        rw [utf8Encode, he, List.cons_append]
      rw [hform] at hfuel ⊢
      rcases fuel with _ | fuel
      · exact absurd hfuel (by simp)
      · have hone : utf8DecodeOne (b :: (bs ++ utf8Encode cs)) = some (c.toNat, utf8Encode cs) := by
          rw [← List.cons_append, ← he, utf8DecodeOne_encodeChar]
        rw [utf8DecodeAux, hone]
        simp only []
        have hlen : (utf8Encode cs).length ≤ fuel := by
          rw [List.length_cons, List.length_append] at hfuel
          omega
        rw [ih fuel hlen]
        show some (Char.ofNat c.toNat :: cs) = some (c :: cs)
        rw [Char.ofNat_toNat]

theorem utf8Decode_utf8Encode (cs : List Char) : utf8Decode (utf8Encode cs) = some cs :=
  utf8DecodeAux_encode cs (utf8Encode cs).length (Nat.le_refl _)

/-! ## Lemmas: base64-URL round trip -/

theorem b64ValOf_b64CharOf : ∀ s < 64, b64ValOf (b64CharOf s) = some s := by decide

theorem mapM_b64ValOf_map_b64CharOf {ss : List Nat} (h : ∀ s ∈ ss, s < 64) :
    (ss.map b64CharOf).mapM b64ValOf = some ss := by
  induction ss with
  | nil => rfl
  | cons s ss ih =>
    rw [List.map_cons, List.mapM_cons,
      b64ValOf_b64CharOf s (h s (List.mem_cons_self s ss)),
      ih (fun x hx => h x (List.mem_cons_of_mem s hx))]
    rfl

theorem bytesToSextets_lt {l : List Nat} (h : ∀ b ∈ l, b < 256) :
    ∀ s ∈ bytesToSextets l, s < 64 := by
  induction l using bytesToSextets.induct with
  | case1 => simp [bytesToSextets]
  | case2 b =>
    have hb := h b (by simp)
    simp [bytesToSextets]
    omega
  | case3 b c =>
    have hb := h b (by simp)
    have hc := h c (by simp)
    simp [bytesToSextets]
    omega
  | case4 b c d rest ih =>
    have hb := h b (by simp)
    have hc := h c (by simp)
    have hd := h d (by simp)
    intro s hs
    rw [bytesToSextets] at hs
    simp only [List.mem_cons] at hs
    rcases hs with rfl | rfl | rfl | rfl | hs
    · omega
    · omega
    · omega
    · omega
    · exact ih (fun x hx => h x (by simp [hx])) s hs

theorem sextetsToBytes_bytesToSextets {l : List Nat} (h : ∀ b ∈ l, b < 256) :
    sextetsToBytes (bytesToSextets l) = some l := by
  induction l using bytesToSextets.induct with
  | case1 => rfl
  | case2 b =>
    have hb := h b (by simp)
    rw [bytesToSextets, sextetsToBytes, if_pos (by omega)]
    have h1 : b / 4 * 4 + b % 4 * 16 / 16 = b := by omega
    rw [h1]
  | case3 b c =>
    have hb := h b (by simp)
    have hc := h c (by simp)
    rw [bytesToSextets, sextetsToBytes, if_pos (by omega)]
    congr 1
    have h1 : b / 4 * 4 + (b % 4 * 16 + c / 16) / 16 = b := by omega
    have h2 : (b % 4 * 16 + c / 16) % 16 * 16 + c % 16 * 4 / 4 = c := by omega
    rw [h1, h2]

  | case4 b c d rest ih =>
    have hb := h b (by simp)
    have hc := h c (by simp)
    have hd := h d (by simp)
    rw [bytesToSextets, sextetsToBytes, ih (fun x hx => h x (by simp [hx]))]
    show some (_ :: _ :: _ :: rest) = some (b :: c :: d :: rest)
    have h1 : b / 4 * 4 + (b % 4 * 16 + c / 16) / 16 = b := by omega
    have h2 : (b % 4 * 16 + c / 16) % 16 * 16 + (c % 16 * 4 + d / 64) / 4 = c := by omega
    have h3 : (c % 16 * 4 + d / 64) % 4 * 64 + d % 64 = d := by omega
    rw [h1, h2, h3]

theorem b64decode_b64encode {l : List Nat} (h : ∀ b ∈ l, b < 256) :
    b64decode (b64encode l) = some l := by
  rw [b64decode, b64encode, mapM_b64ValOf_map_b64CharOf (bytesToSextets_lt h),
    Option.some_bind]
  exact sextetsToBytes_bytesToSextets h

theorem b64encode_head (b : Nat) (rest : List Nat) :
    ∃ t, b64encode (b :: rest) = b64CharOf (b / 4) :: t := by
  rcases rest with _ | ⟨c, rest⟩
  · exact ⟨_, rfl⟩
  · rcases rest with _ | ⟨d, rest⟩
    · exact ⟨_, rfl⟩
    · exact ⟨_, rfl⟩

/-! ## Lemmas: the coordinate codec -/

theorem floor_half_abs (x : ℚ) : |(⌊x + 1 / 2⌋ : ℚ) - x| ≤ 1 / 2 := by
  have h1 : (⌊x + 1 / 2⌋ : ℚ) ≤ x + 1 / 2 := Int.floor_le (x + 1 / 2)
  have h2 : x + 1 / 2 < (⌊x + 1 / 2⌋ : ℚ) + 1 := Int.lt_floor_add_one (x + 1 / 2)
  rw [abs_le]
  constructor <;> linarith

theorem rustRound_abs (q : ℚ) : |(rustRound q : ℚ) - q| ≤ 1 / 2 := by
  rw [rustRound]
  by_cases hq : q < 0
  · rw [if_pos hq]
    have h := floor_half_abs (-q)
    calc |((-⌊-q + 1 / 2⌋ : Int) : ℚ) - q| = |(⌊-q + 1 / 2⌋ : ℚ) - -q| := by
          push_cast
          rw [show -(⌊-q + 1 / 2⌋ : ℚ) - q = -((⌊-q + 1 / 2⌋ : ℚ) - -q) by ring, abs_neg]
      _ ≤ 1 / 2 := h
  · rw [if_neg hq]
    exact floor_half_abs q

theorem wrapI64_eq_self {n : Int} (h1 : -(2 ^ 63) ≤ n) (h2 : n < 2 ^ 63) : wrapI64 n = n := by
  rw [wrapI64]
  omega

theorem latlong_to_e7_bounds {x : ℚ} (h1 : -180 ≤ x) (h2 : x ≤ 180) :
    -(2 ^ 63) ≤ rustRound (x * 10000000) ∧ rustRound (x * 10000000) < 2 ^ 63 ∧
      latlong_to_e7 x = rustRound (x * 10000000) := by
  have hr := rustRound_abs (x * 10000000)
  rw [abs_le] at hr
  have hub : ((rustRound (x * 10000000) : Int) : ℚ) ≤ 1800000001 := by nlinarith
  have hlb : (-1800000001 : ℚ) ≤ ((rustRound (x * 10000000) : Int) : ℚ) := by nlinarith
  have hub' : rustRound (x * 10000000) ≤ 1800000001 := by exact_mod_cast hub
  have hlb' : (-1800000001 : Int) ≤ rustRound (x * 10000000) := by exact_mod_cast hlb
  refine ⟨by omega, by omega, ?_⟩
  rw [latlong_to_e7, wrapI64_eq_self (by omega) (by omega)]

theorem latlong_roundtrip_close {x : ℚ} (h1 : -180 ≤ x) (h2 : x ≤ 180) :
    |latlong_from_e7 (latlong_to_e7 x) - x| ≤ 5 / 100000000 := by
  obtain ⟨-, -, heq⟩ := latlong_to_e7_bounds h1 h2
  rw [heq, latlong_from_e7]
  have hr := rustRound_abs (x * 10000000)
  have hrw : ((rustRound (x * 10000000) : Int) : ℚ) / 10000000 - x =
      (((rustRound (x * 10000000) : Int) : ℚ) - x * 10000000) / 10000000 := by ring
  rw [hrw, abs_div, abs_of_pos (show (0 : ℚ) < 10000000 by norm_num)]
  rw [div_le_iff₀ (show (0 : ℚ) < 10000000 by norm_num)]
  calc |((rustRound (x * 10000000) : Int) : ℚ) - x * 10000000| ≤ 1 / 2 := hr
    _ = 5 / 100000000 * 10000000 := by norm_num

/-! ## Lemmas: UULEv1 round trip -/

theorem not_isPrefixOf_of_head_ne {c d : Char} {pre t : List Char} (h : c ≠ d) :
    ((c :: pre).isPrefixOf (d :: t)) = false := by
  rw [List.isPrefixOf]
  simp [h]

theorem uulev1_roundtrip (role producer : Nat) (name : String)
    (hr : role < 256) (hp : producer < 256)
    (hn : (utf8Encode name.data).length ≤ 255) :
    Uulev1Data.decode (Uulev1Data.encode ⟨role, producer, name⟩) =
      some (Except.ok ⟨role, producer, name⟩) := by
  rw [Uulev1Data.encode, Uulev1Data.decode]
  have hbytes : ∀ b ∈ ([8, role, 16, producer, 34, (utf8Encode name.data).length % 256] ++
      utf8Encode name.data), b < 256 := by
    intro b hb
    rcases List.mem_append.mp hb with h | h
    · simp at h
      rcases h with rfl | rfl | rfl | rfl | rfl | rfl <;> omega
    · exact utf8Encode_lt b h
  have hdata : ("w+" ++ String.mk (b64encode
      ([8, role, 16, producer, 34, (utf8Encode name.data).length % 256] ++
        utf8Encode name.data))).data =
      'w' :: '+' :: b64encode ([8, role, 16, producer, 34,
        (utf8Encode name.data).length % 256] ++ utf8Encode name.data) := by
    simp [String.data_append]
  rw [hdata]
  obtain ⟨t, ht⟩ := b64encode_head 8 ([role, 16, producer, 34,
    (utf8Encode name.data).length % 256] ++ utf8Encode name.data)
  rw [show ([8, role, 16, producer, 34, (utf8Encode name.data).length % 256] ++
      utf8Encode name.data) = 8 :: ([role, 16, producer, 34,
      (utf8Encode name.data).length % 256] ++ utf8Encode name.data) from rfl] at hbytes ⊢
  have hpre : ("w+".data.isPrefixOf ('w' :: '+' :: b64encode (8 :: ([role, 16, producer, 34,
      (utf8Encode name.data).length % 256] ++ utf8Encode name.data)))) = true := by
    show (['w', '+'].isPrefixOf _) = true
    simp [List.isPrefixOf]
  rw [hpre]
  simp only [Bool.true_eq_false, if_false]
  have htrim : trimStartMatches "w+".data ('w' :: '+' :: b64encode (8 :: ([role, 16, producer,
      34, (utf8Encode name.data).length % 256] ++ utf8Encode name.data))) =
      b64encode (8 :: ([role, 16, producer, 34,
        (utf8Encode name.data).length % 256] ++ utf8Encode name.data)) := by
    rw [show ('w' :: '+' :: b64encode (8 :: ([role, 16, producer, 34,
        (utf8Encode name.data).length % 256] ++ utf8Encode name.data))) =
        "w+".data ++ b64encode (8 :: ([role, 16, producer, 34,
        (utf8Encode name.data).length % 256] ++ utf8Encode name.data)) from rfl]
    refine trimStartMatches_append (by simp) ?_
    rw [ht]
    exact not_isPrefixOf_of_head_ne (by decide)
  rw [htrim, b64decode_b64encode hbytes]
  have hlen6 : 6 ≤ (8 :: ([role, 16, producer, 34,
      (utf8Encode name.data).length % 256] ++ utf8Encode name.data)).length := by
    simp
  simp only []
  rw [dif_pos hlen6]
  have hmod : (utf8Encode name.data).length % 256 = (utf8Encode name.data).length :=
    Nat.mod_eq_of_lt (by omega)
  simp only [List.cons_append, List.nil_append, List.get]
  rw [hmod]
  rw [if_pos (by simp only [List.length_cons]; omega)]
  have hdrop : (8 :: role :: 16 :: producer :: 34 :: (utf8Encode name.data).length ::
      utf8Encode name.data).drop 6 = utf8Encode name.data := rfl
  rw [hdrop, List.take_length, utf8Decode_utf8Encode]

/-! ## Lemmas: UULEv2 field lines -/

theorem mem_natDigits_ne_cr {n : Nat} {c : Char} (h : c ∈ natDigits n) : c ≠ '\r' := by
  have := mem_natDigits h
  intro he
  subst he
  revert this
  decide

theorem mem_intRepr_ne_cr {n : Int} {c : Char} (h : c ∈ intRepr n) : c ≠ '\r' := by
  rw [intRepr] at h
  split_ifs at h
  · rcases List.mem_cons.mp h with rfl | h
    · decide
    · exact mem_natDigits_ne_cr h
  · exact mem_natDigits_ne_cr h

theorem colon_not_mem_natDigits (n : Nat) : ':' ∉ natDigits n := by
  intro h
  have := mem_natDigits h
  revert this
  decide

theorem colon_not_mem_intRepr (n : Int) : ':' ∉ intRepr n := by
  intro h
  rw [intRepr] at h
  split_ifs at h
  · rcases List.mem_cons.mp h with h | h
    · exact absurd h (by decide)
    · exact colon_not_mem_natDigits _ h
  · exact colon_not_mem_natDigits _ h

theorem nl_not_mem_natDigits (n : Nat) : '\n' ∉ natDigits n := by
  intro h
  have := mem_natDigits h
  revert this
  decide

theorem nl_not_mem_intRepr (n : Int) : '\n' ∉ intRepr n := by
  intro h
  rw [intRepr] at h
  split_ifs at h
  · rcases List.mem_cons.mp h with h | h
    · exact absurd h (by decide)
    · exact nl_not_mem_natDigits _ h
  · exact nl_not_mem_natDigits _ h

theorem intRepr_ne_nil (n : Int) : intRepr n ≠ [] := by
  rw [intRepr]
  split_ifs
  · simp
  · exact natDigits_ne_nil _

theorem getLast_append_ne_cr {label ds : List Char} (hne : ds ≠ [])
    (hd : ∀ c ∈ ds, c ≠ '\r') : (label ++ ds).getLast? ≠ some '\r' := by
  rw [List.getLast?_append, List.getLast?_eq_getLast _ hne]
  intro hcontra
  simp [Option.or] at hcontra
  exact hd _ (List.getLast_mem hne) hcontra

theorem get_field_value_label {field : String} {label value : List Char}
    (hlabel : label = field.data ++ [':']) (hf : ':' ∉ field.data) (hv : ':' ∉ value) :
    Uulev2Data.get_field_value (some (label ++ value)) field = Except.ok value := by
  rw [Uulev2Data.get_field_value]
  have hform : label ++ value = field.data ++ ':' :: value := by
    rw [hlabel, List.append_assoc]
    rfl
  rw [hform]
  have hpre : (field.data.isPrefixOf (field.data ++ ':' :: value)) = true :=
    List.isPrefixOf_iff_prefix.mpr ⟨':' :: value, rfl⟩
  rw [hpre, if_neg (by simp), splitOn_append_cons, splitOn_no_sep hf, splitOn_no_sep hv]
  rfl

theorem parse_int_line_label {α : Type} {field : String} {label value : List Char}
    {p : List Char → Option α} {x : α}
    (hlabel : label = field.data ++ [':']) (hf : ':' ∉ field.data) (hv : ':' ∉ value)
    (hp : p value = some x) :
    Uulev2Data.parse_int_line (some (label ++ value)) field p = Except.ok x := by
  rw [Uulev2Data.parse_int_line, get_field_value_label hlabel hf hv]
  show (match p value with
    | some y => (Except.ok y : Except Uulev2Error α)
    | none => Except.error Uulev2Error.invalidIntegerValue) = Except.ok x
  rw [hp]

theorem latlong_to_e7_range (x : ℚ) :
    -(2 ^ 63) ≤ latlong_to_e7 x ∧ latlong_to_e7 x < 2 ^ 63 := by
  rw [latlong_to_e7, wrapI64]
  omega

theorem except_bind_ok {ε α β : Type} (a : α) (f : α → Except ε β) :
    (Except.ok a : Except ε α).bind f = f a := rfl

theorem except_map_ok {ε α β : Type} (a : α) (f : α → β) :
    (Except.ok a : Except ε α).map f = Except.ok (f a) := rfl

theorem parse_lat_long_block {latE7 longE7 : Int} (rest : List (List Char))
    (h1 : -(2 ^ 63) ≤ latE7) (h2 : latE7 < 2 ^ 63)
    (h3 : -(2 ^ 63) ≤ longE7) (h4 : longE7 < 2 ^ 63) :
    Uulev2Data.parse_lat_long ("latlng\x7b".data :: ("latitude_e7:".data ++ intRepr latE7) ::
      ("longitude_e7:".data ++ intRepr longE7) :: "\x7d".data :: rest) =
      Except.ok (latlong_from_e7 latE7, latlong_from_e7 longE7) := by
  rw [Uulev2Data.parse_lat_long]
  simp only [List.head?_cons, List.tail_cons, ne_eq, eq_self_iff_true, not_true_eq_false,
    if_false]
  rw [parse_int_line_label (by decide) (by decide) (colon_not_mem_intRepr _)
    (parse_signed_intRepr h1 h2), except_bind_ok]
  rw [parse_int_line_label (by decide) (by decide) (colon_not_mem_intRepr _)
    (parse_signed_intRepr h3 h4), except_bind_ok]

theorem decode_lines_displayLines (d : Uulev2Data) (hrole : d.role < 256)
    (hprod : d.producer < 256)
    (hprov1 : -(2 ^ 31) ≤ d.provenance) (hprov2 : d.provenance < 2 ^ 31)
    (hts : d.timestamp < 2 ^ 128)
    (hrad1 : -(2 ^ 31) ≤ d.radius) (hrad2 : d.radius < 2 ^ 31) :
    Uulev2Data.decode_lines d.displayLines = Except.ok
      (Uulev2Data.mk d.role d.producer d.provenance d.timestamp
        (latlong_from_e7 (latlong_to_e7 d.lat)) (latlong_from_e7 (latlong_to_e7 d.long))
        d.radius) := by
  obtain ⟨hlat1, hlat2⟩ := latlong_to_e7_range d.lat
  obtain ⟨hlong1, hlong2⟩ := latlong_to_e7_range d.long
  rw [Uulev2Data.displayLines, Uulev2Data.decode_lines]
  simp only [List.head?_cons, List.tail_cons]
  rw [parse_int_line_label (by decide) (by decide) (colon_not_mem_natDigits _)
      (parse_unsigned_natDigits (show d.role ≤ 255 by omega)), except_bind_ok]
  rw [parse_int_line_label (by decide) (by decide) (colon_not_mem_natDigits _)
      (parse_unsigned_natDigits (show d.producer ≤ 255 by omega)), except_bind_ok]
  rw [parse_int_line_label (by decide) (by decide) (colon_not_mem_intRepr _)
      (parse_signed_intRepr hprov1 hprov2), except_bind_ok]
  rw [parse_int_line_label (by decide) (by decide) (colon_not_mem_natDigits _)
      (parse_unsigned_natDigits (show d.timestamp ≤ 2 ^ 128 - 1 by omega)), except_bind_ok]
  rw [parse_lat_long_block _ hlat1 hlat2 hlong1 hlong2, except_bind_ok]
  rw [parse_int_line_label (by decide) (by decide) (colon_not_mem_intRepr _)
      (parse_signed_intRepr hrad1 hrad2), except_map_ok]

theorem displayLines_nl (d : Uulev2Data) : ∀ l ∈ d.displayLines, '\n' ∉ l := by
  intro l hl
  rw [Uulev2Data.displayLines] at hl
  simp only [List.mem_cons, List.not_mem_nil, or_false] at hl
  rcases hl with rfl | rfl | rfl | rfl | rfl | rfl | rfl | rfl | rfl
  · intro h
    rcases List.mem_append.mp h with h | h
    · revert h; decide
    · exact nl_not_mem_natDigits _ h
  · intro h
    rcases List.mem_append.mp h with h | h
    · revert h; decide
    · exact nl_not_mem_natDigits _ h
  · intro h
    rcases List.mem_append.mp h with h | h
    · revert h; decide
    · exact nl_not_mem_intRepr _ h
  · intro h
    rcases List.mem_append.mp h with h | h
    · revert h; decide
    · exact nl_not_mem_natDigits _ h
  · decide
  · intro h
    rcases List.mem_append.mp h with h | h
    · revert h; decide
    · exact nl_not_mem_intRepr _ h
  · intro h
    rcases List.mem_append.mp h with h | h
    · revert h; decide
    · exact nl_not_mem_intRepr _ h
  · decide
  · intro h
    rcases List.mem_append.mp h with h | h
    · revert h; decide
    · exact nl_not_mem_intRepr _ h

theorem displayLines_ne_nil (d : Uulev2Data) : ∀ l ∈ d.displayLines, l ≠ [] := by
  intro l hl
  rw [Uulev2Data.displayLines] at hl
  simp only [List.mem_cons, List.not_mem_nil, or_false] at hl
  rcases hl with rfl | rfl | rfl | rfl | rfl | rfl | rfl | rfl | rfl <;> simp

theorem displayLines_last (d : Uulev2Data) : ∀ l ∈ d.displayLines, l.getLast? ≠ some '\r' := by
  intro l hl
  rw [Uulev2Data.displayLines] at hl
  simp only [List.mem_cons, List.not_mem_nil, or_false] at hl
  rcases hl with rfl | rfl | rfl | rfl | rfl | rfl | rfl | rfl | rfl
  · exact getLast_append_ne_cr (natDigits_ne_nil _) (fun c h => mem_natDigits_ne_cr h)
  · exact getLast_append_ne_cr (natDigits_ne_nil _) (fun c h => mem_natDigits_ne_cr h)
  · exact getLast_append_ne_cr (intRepr_ne_nil _) (fun c h => mem_intRepr_ne_cr h)
  · exact getLast_append_ne_cr (natDigits_ne_nil _) (fun c h => mem_natDigits_ne_cr h)
  · decide
  · exact getLast_append_ne_cr (intRepr_ne_nil _) (fun c h => mem_intRepr_ne_cr h)
  · exact getLast_append_ne_cr (intRepr_ne_nil _) (fun c h => mem_intRepr_ne_cr h)
  · decide
  · exact getLast_append_ne_cr (intRepr_ne_nil _) (fun c h => mem_intRepr_ne_cr h)

theorem displayLines_ne_nil_list (d : Uulev2Data) : d.displayLines ≠ [] := by
  rw [Uulev2Data.displayLines]
  simp

theorem rustLines_display (d : Uulev2Data) : rustLines d.display = d.displayLines :=
  rustLines_joinLines (displayLines_ne_nil_list d) (displayLines_nl d)
    (displayLines_ne_nil d) (displayLines_last d)

theorem display_head (d : Uulev2Data) : ∃ t, d.display = 'r' :: t := ⟨_, rfl⟩

theorem utf8Encode_ascii_head {c : Char} (t : List Char) (h : c.toNat < 128) :
    utf8Encode (c :: t) = c.toNat :: utf8Encode t := by
  rw [utf8Encode, utf8EncodeChar]
  simp only [h, if_pos]
  rfl

theorem uulev2_roundtrip (d : Uulev2Data) (hrole : d.role < 256)
    (hprod : d.producer < 256)
    (hprov1 : -(2 ^ 31) ≤ d.provenance) (hprov2 : d.provenance < 2 ^ 31)
    (hts : d.timestamp < 2 ^ 128)
    (hrad1 : -(2 ^ 31) ≤ d.radius) (hrad2 : d.radius < 2 ^ 31) :
    Uulev2Data.decode (Uulev2Data.encode d) = some (Except.ok
      (Uulev2Data.mk d.role d.producer d.provenance d.timestamp
        (latlong_from_e7 (latlong_to_e7 d.lat)) (latlong_from_e7 (latlong_to_e7 d.long))
        d.radius)) := by
  rw [Uulev2Data.encode, Uulev2Data.decode]
  have hdata : ("a+" ++ String.mk (b64encode (utf8Encode d.display))).data =
      'a' :: '+' :: b64encode (utf8Encode d.display) := by
    simp [String.data_append]
  rw [hdata]
  obtain ⟨t, ht⟩ := display_head d
  obtain ⟨bt, hbt⟩ : ∃ bt, utf8Encode d.display = 114 :: bt := by
    rw [ht, utf8Encode_ascii_head t (by decide)]
    exact ⟨_, rfl⟩
  obtain ⟨ct, hct⟩ := b64encode_head 114 bt
  have hpre : ("a+".data.isPrefixOf ('a' :: '+' :: b64encode (utf8Encode d.display))) = true := by
    show (['a', '+'].isPrefixOf _) = true
    simp [List.isPrefixOf]
  rw [hpre]
  simp only [Bool.true_eq_false, if_false]
  have htrim : trimStartMatches "a+".data ('a' :: '+' :: b64encode (utf8Encode d.display)) =
      b64encode (utf8Encode d.display) := by
    rw [show ('a' :: '+' :: b64encode (utf8Encode d.display)) =
        "a+".data ++ b64encode (utf8Encode d.display) from rfl]
    refine trimStartMatches_append (by simp) ?_
    rw [hbt, hct]
    exact not_isPrefixOf_of_head_ne (by decide)
  rw [htrim, b64decode_b64encode utf8Encode_lt]
  simp only []
  rw [utf8Decode_utf8Encode]
  simp only []
  rw [rustLines_display]
  rw [decode_lines_displayLines d hrole hprod hprov1 hprov2 hts hrad1 hrad2]

theorem decode_lines_extend9 (l0 l1 l2 l3 l4 l5 l6 l7 l8 : List Char)
    (rest : List (List Char)) :
    Uulev2Data.decode_lines (l0 :: l1 :: l2 :: l3 :: l4 :: l5 :: l6 :: l7 :: l8 :: rest) =
      Uulev2Data.decode_lines [l0, l1, l2, l3, l4, l5, l6, l7, l8] := rfl

theorem decode_lines_append_junk (d : Uulev2Data) (junk : List (List Char)) :
    Uulev2Data.decode_lines (d.displayLines ++ junk) = Uulev2Data.decode_lines d.displayLines := by
  rw [Uulev2Data.displayLines]
  exact decode_lines_extend9 _ _ _ _ _ _ _ _ _ junk

theorem uulev2_roundtrip_extended (d : Uulev2Data) (extra : List Char) (hrole : d.role < 256)
    (hprod : d.producer < 256)
    (hprov1 : -(2 ^ 31) ≤ d.provenance) (hprov2 : d.provenance < 2 ^ 31)
    (hts : d.timestamp < 2 ^ 128)
    (hrad1 : -(2 ^ 31) ≤ d.radius) (hrad2 : d.radius < 2 ^ 31) :
    Uulev2Data.decode ("a+" ++ String.mk (b64encode (utf8Encode (d.display ++ '\n' :: extra)))) =
      some (Except.ok
        (Uulev2Data.mk d.role d.producer d.provenance d.timestamp
          (latlong_from_e7 (latlong_to_e7 d.lat)) (latlong_from_e7 (latlong_to_e7 d.long))
          d.radius)) := by
  rw [Uulev2Data.decode]
  have hdata : ("a+" ++ String.mk (b64encode (utf8Encode (d.display ++ '\n' :: extra)))).data =
      'a' :: '+' :: b64encode (utf8Encode (d.display ++ '\n' :: extra)) := by
    simp [String.data_append]
  rw [hdata]
  obtain ⟨t, ht⟩ := display_head d
  obtain ⟨bt, hbt⟩ : ∃ bt, utf8Encode (d.display ++ '\n' :: extra) = 114 :: bt := by
    rw [ht, List.cons_append, utf8Encode_ascii_head _ (by decide)]
    exact ⟨_, rfl⟩
  obtain ⟨ct, hct⟩ := b64encode_head 114 bt
  have hpre : ("a+".data.isPrefixOf
      ('a' :: '+' :: b64encode (utf8Encode (d.display ++ '\n' :: extra)))) = true := by
    show (['a', '+'].isPrefixOf _) = true
    simp [List.isPrefixOf]
  rw [hpre]
  simp only [Bool.true_eq_false, if_false]
  have htrim : trimStartMatches "a+".data
      ('a' :: '+' :: b64encode (utf8Encode (d.display ++ '\n' :: extra))) =
      b64encode (utf8Encode (d.display ++ '\n' :: extra)) := by
    rw [show ('a' :: '+' :: b64encode (utf8Encode (d.display ++ '\n' :: extra))) =
        "a+".data ++ b64encode (utf8Encode (d.display ++ '\n' :: extra)) from rfl]
    refine trimStartMatches_append (by simp) ?_
    rw [hbt, hct]
    exact not_isPrefixOf_of_head_ne (by decide)
  rw [htrim, b64decode_b64encode utf8Encode_lt]
  simp only []
  rw [utf8Decode_utf8Encode]
  simp only []
  obtain ⟨junk, hjunk⟩ := rustLines_joinLines_append extra (displayLines_ne_nil_list d)
    (displayLines_nl d) (displayLines_last d)
  rw [show d.display ++ '\n' :: extra = joinLines d.displayLines ++ '\n' :: extra from rfl,
    hjunk, decode_lines_append_junk]
  rw [decode_lines_displayLines d hrole hprod hprov1 hprov2 hts hrad1 hrad2]

/-! ## The claims -/

/-- C1: For every `Uulev1Data` record whose `canonical_name` is at most 255
UTF-8 bytes (and whose `role`/`producer` are `u8` values), decoding the
string produced by `encode` returns `Ok` of a record equal to the original:
`Uulev1Data::decode(r.encode()) == Ok(r)`. -/
theorem claim_C1_uulev1_roundtrip (d : Uulev1Data) (hrole : d.role < 256)
    (hprod : d.producer < 256)
    (hname : (utf8Encode d.canonical_name.data).length ≤ 255) :
    Uulev1Data.decode (Uulev1Data.encode d) = some (Except.ok d) := by
  obtain ⟨role, producer, name⟩ := d
  exact uulev1_roundtrip role producer name hrole hprod hname

theorem claim_C1_witness :
    ((2 : Nat) < 256 ∧ (32 : Nat) < 256 ∧
      (utf8Encode ("Queens County,New York,United States" : String).data).length ≤ 255) ∧
    Uulev1Data.decode (Uulev1Data.encode
      (Uulev1Data.mk 2 32 "Queens County,New York,United States")) =
      some (Except.ok (Uulev1Data.mk 2 32 "Queens County,New York,United States")) :=
  ⟨⟨by decide, by decide, by decide⟩,
    claim_C1_uulev1_roundtrip (Uulev1Data.mk 2 32 "Queens County,New York,United States")
      (by decide) (by decide) (by decide)⟩

/-- C2: For every `Uulev2Data` record with `lat` and `long` in `[-180, 180]`
(and the integer fields in their Rust ranges), `Uulev2Data::decode(r.encode())`
returns `Ok` of a record whose `role`, `producer`, `provenance`, `timestamp`
and `radius` equal those of `r`, and whose `lat` and `long` each differ from
`r`'s by at most `5 × 10⁻⁸`. -/
theorem claim_C2_uulev2_roundtrip (d : Uulev2Data) (hrole : d.role < 256)
    (hprod : d.producer < 256)
    (hprov1 : -(2 ^ 31) ≤ d.provenance) (hprov2 : d.provenance < 2 ^ 31)
    (hts : d.timestamp < 2 ^ 128)
    (hrad1 : -(2 ^ 31) ≤ d.radius) (hrad2 : d.radius < 2 ^ 31)
    (hlat1 : -180 ≤ d.lat) (hlat2 : d.lat ≤ 180)
    (hlong1 : -180 ≤ d.long) (hlong2 : d.long ≤ 180) :
    Uulev2Data.decode (Uulev2Data.encode d) = some (Except.ok
      (Uulev2Data.mk d.role d.producer d.provenance d.timestamp
        (latlong_from_e7 (latlong_to_e7 d.lat)) (latlong_from_e7 (latlong_to_e7 d.long))
        d.radius)) ∧
    |latlong_from_e7 (latlong_to_e7 d.lat) - d.lat| ≤ 5 / 100000000 ∧
    |latlong_from_e7 (latlong_to_e7 d.long) - d.long| ≤ 5 / 100000000 :=
  ⟨uulev2_roundtrip d hrole hprod hprov1 hprov2 hts hrad1 hrad2,
    latlong_roundtrip_close hlat1 hlat2, latlong_roundtrip_close hlong1 hlong2⟩

theorem claim_C2_witness :
    ((1 : Nat) < 256 ∧ (12 : Nat) < 256 ∧ -(2 ^ 31) ≤ (6 : Int) ∧ (6 : Int) < 2 ^ 31 ∧
      (1591521249034000 : Nat) < 2 ^ 128 ∧ -(2 ^ 31) ≤ (-1 : Int) ∧ (-1 : Int) < 2 ^ 31 ∧
      -180 ≤ (37.421 : ℚ) ∧ (37.421 : ℚ) ≤ 180 ∧
      -180 ≤ (-12.2084 : ℚ) ∧ (-12.2084 : ℚ) ≤ 180) ∧
    (Uulev2Data.decode (Uulev2Data.encode
        (Uulev2Data.mk 1 12 6 1591521249034000 37.421 (-12.2084) (-1))) = some (Except.ok
      (Uulev2Data.mk 1 12 6 1591521249034000
        (latlong_from_e7 (latlong_to_e7 37.421)) (latlong_from_e7 (latlong_to_e7 (-12.2084)))
        (-1))) ∧
      |latlong_from_e7 (latlong_to_e7 (37.421 : ℚ)) - 37.421| ≤ 5 / 100000000 ∧
      |latlong_from_e7 (latlong_to_e7 (-12.2084 : ℚ)) - -12.2084| ≤ 5 / 100000000) :=
  ⟨⟨by decide, by decide, by decide, by decide, by decide, by decide, by decide,
      by norm_num, by norm_num, by norm_num, by norm_num⟩,
    claim_C2_uulev2_roundtrip (Uulev2Data.mk 1 12 6 1591521249034000 37.421 (-12.2084) (-1))
      (by decide) (by decide) (by decide) (by decide) (by decide) (by decide) (by decide)
      (by norm_num) (by norm_num) (by norm_num) (by norm_num)⟩

/-- C3 (code bug): the claim states that an input starting with `"a+"` whose
remainder is invalid base64-URL yields a typed `Err(Base64DecodingError)`.
The code instead calls `.unwrap()` on the base64 result, so it panics; in
the model the panic is the `none` outcome, never a `some (Except.error _)`
typed result.  `"a+!"` is such an input (`'!'` is not in the base64-URL
alphabet). -/
theorem claim_C3_base64_panic : Uulev2Data.decode "a+!" = none := by decide

/-- C4 (code bug): the claim states that a `"w+"` token whose decoded byte
sequence is shorter than 6 bytes fails with a declared `MalformedRecord`
error.  No such variant exists in `Uulev1Error`, and the code indexes
`bytes[1]` without a bounds check, so it panics; in the model the panic is
the `none` outcome.  `"w+"` itself decodes to the empty byte sequence. -/
theorem claim_C4_short_input_panic : Uulev1Data.decode "w+" = none := by decide

set_option maxRecDepth 20000 in
/-- C5 (code bug): the claim states that `encode` surfaces an explicit error
for a `canonical_name` longer than 255 UTF-8 bytes.  `encode` is infallible
in the code and the length byte is the wrapping cast `len as u8`: for a
256-byte name the length byte is `0`, and the emitted token is corrupt — it
decodes successfully to a record whose name is empty, not to the original
record and not to an error. -/
theorem claim_C5_oversized_name_corrupt :
    Uulev1Data.decode (Uulev1Data.encode
      (Uulev1Data.mk 2 32 (String.mk (List.replicate 256 'a')))) =
      some (Except.ok (Uulev1Data.mk 2 32 "")) ∧
    Uulev1Data.mk 2 32 "" ≠ Uulev1Data.mk 2 32 (String.mk (List.replicate 256 'a')) :=
  ⟨by decide, by decide⟩

/-- C6: For every input string that does not start with `"w+"`,
`Uulev1Data::decode` returns `Err(InvalidPrefix(s))` carrying the original
input string unchanged; likewise for `"a+"` and `Uulev2Data::decode`. -/
theorem claim_C6_invalid_marker :
    (∀ s : String, ("w+".data.isPrefixOf s.data) = false →
      Uulev1Data.decode s = some (Except.error (Uulev1Error.invalidPrefix s))) ∧
    (∀ s : String, ("a+".data.isPrefixOf s.data) = false →
      Uulev2Data.decode s = some (Except.error (Uulev2Error.invalidPrefix s))) := by
  constructor
  · intro s h
    rw [Uulev1Data.decode, if_pos h]
  · intro s h
    rw [Uulev2Data.decode, if_pos h]

theorem claim_C6_witness :
    (("w+".data.isPrefixOf ("asdf" : String).data) = false ∧
      Uulev1Data.decode "asdf" = some (Except.error (Uulev1Error.invalidPrefix "asdf"))) ∧
    (("a+".data.isPrefixOf ("asdf" : String).data) = false ∧
      Uulev2Data.decode "asdf" = some (Except.error (Uulev2Error.invalidPrefix "asdf"))) :=
  ⟨⟨by decide, claim_C6_invalid_marker.1 "asdf" (by decide)⟩,
    ⟨by decide, claim_C6_invalid_marker.2 "asdf" (by decide)⟩⟩

/-- C7: During `Uulev2Data::decode`, each sequential parsing step validates
the expected field-name prefix before the colon (or the exact delimiter
lines `"latlng\x7b"` and `"\x7d"`), failing with `UnexpectedLine{expected, actual}`
when a line does not match the expected field marker and with
`UnexpectedEnd(field)` when the line stream ends early; in particular
`parse_lat_long` succeeds only when its first line is exactly `"latlng\x7b"`
and its fourth line is exactly `"\x7d"`, so a token whose delimiter line is
altered or removed never decodes to a successful-but-wrong record. -/
theorem claim_C7_line_validation :
    (∀ field : String, Uulev2Data.get_field_value none field =
      Except.error (Uulev2Error.unexpectedEnd field)) ∧
    (∀ (line : List Char) (field : String), (field.data.isPrefixOf line) = false →
      Uulev2Data.get_field_value (some line) field =
        Except.error (Uulev2Error.unexpectedLine field (String.mk line))) ∧
    (Uulev2Data.parse_lat_long [] = Except.error (Uulev2Error.unexpectedEnd "latlng\x7b")) ∧
    (∀ (l : List Char) (ls : List (List Char)), l ≠ "latlng\x7b".data →
      Uulev2Data.parse_lat_long (l :: ls) =
        Except.error (Uulev2Error.unexpectedLine "latlng\x7b" (String.mk l))) ∧
    (∀ (ls : List (List Char)) (r : ℚ × ℚ), Uulev2Data.parse_lat_long ls = Except.ok r →
      ls.head? = some "latlng\x7b".data ∧ ls.tail.tail.tail.head? = some "\x7d".data) := by
  refine ⟨fun field => rfl, ?_, rfl, ?_, ?_⟩
  · intro line field h
    rw [Uulev2Data.get_field_value, h]
    rw [if_pos rfl]
  · intro l ls h
    rw [Uulev2Data.parse_lat_long]
    simp only [List.head?_cons]
    rw [if_pos h]
  · intro ls r h
    rw [Uulev2Data.parse_lat_long] at h
    rcases hh : ls.head? with _ | line
    · rw [hh] at h
      exact absurd h (by simp)
    · rw [hh] at h
      simp only [] at h
      by_cases hl : line ≠ "latlng\x7b".data
      · rw [if_pos hl] at h
        exact absurd h (by simp)
      · rw [if_neg hl] at h
        rw [not_ne_iff] at hl
        subst hl
        refine ⟨rfl, ?_⟩
        rcases hp1 : Uulev2Data.parse_int_line ls.tail.head? "latitude_e7"
            (parse_signed (2 ^ 63)) with e | v
        · rw [hp1] at h
          exact absurd h (by simp [Except.bind])
        · rw [hp1, except_bind_ok] at h
          rcases hp2 : Uulev2Data.parse_int_line ls.tail.tail.head? "longitude_e7"
              (parse_signed (2 ^ 63)) with e | v2
          · rw [hp2] at h
            exact absurd h (by simp [Except.bind])
          · rw [hp2, except_bind_ok] at h
            rcases hc : ls.tail.tail.tail.head? with _ | close
            · rw [hc] at h
              exact absurd h (by simp)
            · rw [hc] at h
              simp only [] at h
              by_cases hcl : close ≠ "\x7d".data
              · rw [if_pos hcl] at h
                exact absurd h (by simp)
              · rw [not_ne_iff] at hcl
                rw [hcl]

theorem claim_C7_witness :
    Uulev2Data.get_field_value none "role" = Except.error (Uulev2Error.unexpectedEnd "role") ∧
    Uulev2Data.get_field_value (some "bogus".data) "role" =
      Except.error (Uulev2Error.unexpectedLine "role" (String.mk "bogus".data)) ∧
    Uulev2Data.parse_lat_long [] = Except.error (Uulev2Error.unexpectedEnd "latlng\x7b") ∧
    Uulev2Data.parse_lat_long ["oops".data] =
      Except.error (Uulev2Error.unexpectedLine "latlng\x7b" (String.mk "oops".data)) ∧
    (["latlng\x7b".data, "latitude_e7:0".data, "longitude_e7:0".data,
        "\x7d".data] : List (List Char)).head? = some "latlng\x7b".data ∧
    (["latlng\x7b".data, "latitude_e7:0".data, "longitude_e7:0".data,
        "\x7d".data] : List (List Char)).tail.tail.tail.head? = some "\x7d".data :=
  ⟨claim_C7_line_validation.1 "role",
    claim_C7_line_validation.2.1 "bogus".data "role" (by decide),
    claim_C7_line_validation.2.2.1,
    claim_C7_line_validation.2.2.2.1 "oops".data [] (by decide),
    claim_C7_line_validation.2.2.2.2
      ["latlng\x7b".data, "latitude_e7:0".data, "longitude_e7:0".data, "\x7d".data]
      (latlong_from_e7 0, latlong_from_e7 0) rfl⟩

/-- C8 (counterexample): the claim states that a field line with its colon
but no value after it (e.g. `"role:"`) fails with `MissingValue(field)`.
On the token `"a+cm9sZTo"` (base64-URL of `"role:"`) the code instead
returns `InvalidIntegerValue`: Rust's `"role:".split(':').nth(1)` is
`Some("")`, not `None`, so `get_field_value` succeeds with the empty string
and the integer parse fails. -/
theorem claim_C8_counterexample :
    Uulev2Data.decode "a+cm9sZTo" = some (Except.error Uulev2Error.invalidIntegerValue) ∧
    Uulev2Error.invalidIntegerValue ≠ Uulev2Error.missingValue "role" :=
  ⟨by decide, by decide⟩

/-- C8 (amended): During `Uulev2Data::decode`, a field line that starts with
the expected field name but contains no colon at all fails with
`MissingValue(field)` naming that field; a field line with a colon but no
value after it (such as `"role:"`) yields the empty value string and fails
with `InvalidIntegerValue` instead. -/
theorem claim_C8_missing_value_amended :
    (∀ (field : String) (line : List Char), (field.data.isPrefixOf line) = true →
      ':' ∉ line →
      Uulev2Data.get_field_value (some line) field =
        Except.error (Uulev2Error.missingValue field)) ∧
    Uulev2Data.decode "a+cm9sZTo" = some (Except.error Uulev2Error.invalidIntegerValue) := by
  constructor
  · intro field line hpre hcolon
    rw [Uulev2Data.get_field_value, hpre, if_neg (by simp), splitOn_no_sep hcolon]
    rfl
  · decide

theorem claim_C8_witness :
    ((("role" : String).data.isPrefixOf "role".data) = true ∧ ':' ∉ ("role" : String).data) ∧
    Uulev2Data.get_field_value (some "role".data) "role" =
      Except.error (Uulev2Error.missingValue "role") :=
  ⟨⟨by decide, by decide⟩,
    claim_C8_missing_value_amended.1 "role" "role".data (by decide) (by decide)⟩

/-- C9: The coordinate codec satisfies the pinned conversions:
`latlong_to_e7(37.421) == 374210000` and
`latlong_to_e7(-12.2084) == -122084000` (multiply by 10,000,000 and round
to nearest), and in the other direction
`latlong_from_e7(374210000) == 37.421` and
`latlong_from_e7(-122084000) == -12.2084` exactly. -/
theorem claim_C9_e7_pinned :
    latlong_to_e7 (37.421 : ℚ) = 374210000 ∧
    latlong_to_e7 (-12.2084 : ℚ) = -122084000 ∧
    latlong_from_e7 374210000 = (37.421 : ℚ) ∧
    latlong_from_e7 (-122084000) = (-12.2084 : ℚ) := by
  refine ⟨?_, ?_, ?_, ?_⟩ <;>
    norm_num [latlong_to_e7, rustRound, wrapI64, latlong_from_e7]

/-- C10: `Uulev2Data::decode` ignores everything after the ninth expected
line: appending arbitrary extra newline-separated content after the
`radius:` line of the intermediate text (before base64 encoding) still
yields `Ok` of the same record as decoding the unmodified token, with the
trailing content silently discarded rather than rejected. -/
theorem claim_C10_trailing_lines_ignored (d : Uulev2Data) (extra : List Char)
    (hrole : d.role < 256) (hprod : d.producer < 256)
    (hprov1 : -(2 ^ 31) ≤ d.provenance) (hprov2 : d.provenance < 2 ^ 31)
    (hts : d.timestamp < 2 ^ 128)
    (hrad1 : -(2 ^ 31) ≤ d.radius) (hrad2 : d.radius < 2 ^ 31) :
    Uulev2Data.decode ("a+" ++ String.mk (b64encode (utf8Encode
        (d.display ++ '\n' :: extra)))) =
      some (Except.ok (Uulev2Data.mk d.role d.producer d.provenance d.timestamp
        (latlong_from_e7 (latlong_to_e7 d.lat)) (latlong_from_e7 (latlong_to_e7 d.long))
        d.radius)) ∧
    Uulev2Data.decode ("a+" ++ String.mk (b64encode (utf8Encode
        (d.display ++ '\n' :: extra)))) =
      Uulev2Data.decode (Uulev2Data.encode d) := by
  have h1 := uulev2_roundtrip_extended d extra hrole hprod hprov1 hprov2 hts hrad1 hrad2
  have h2 := uulev2_roundtrip d hrole hprod hprov1 hprov2 hts hrad1 hrad2
  exact ⟨h1, h1.trans h2.symm⟩

theorem claim_C10_witness :
    ((1 : Nat) < 256 ∧ (12 : Nat) < 256 ∧ -(2 ^ 31) ≤ (6 : Int) ∧ (6 : Int) < 2 ^ 31 ∧
      (1591521249034000 : Nat) < 2 ^ 128 ∧ -(2 ^ 31) ≤ (-1 : Int) ∧ (-1 : Int) < 2 ^ 31) ∧
    Uulev2Data.decode ("a+" ++ String.mk (b64encode (utf8Encode
        ((Uulev2Data.mk 1 12 6 1591521249034000 37.421 (-12.2084) (-1)).display ++
          '\n' :: ("junk:42" : String).data)))) =
      Uulev2Data.decode (Uulev2Data.encode
        (Uulev2Data.mk 1 12 6 1591521249034000 37.421 (-12.2084) (-1))) :=
  ⟨⟨by decide, by decide, by decide, by decide, by decide, by decide, by decide⟩,
    (claim_C10_trailing_lines_ignored
      (Uulev2Data.mk 1 12 6 1591521249034000 37.421 (-12.2084) (-1)) ("junk:42" : String).data
      (by decide) (by decide) (by decide) (by decide) (by decide) (by decide) (by decide)).2⟩
